import Mathlib

/-!
Shallow embedding of the matching engine of `agent-market`
(`src/order_book.py`, `src/market_maker/order_service.py`,
`src/market_maker/database.py`, `src/market_maker/order_router.py`,
`src/utils.py`) and proofs of the spec's claims about it.

Modelling conventions:
* Python floats used as prices are embedded as `ℚ`.  The program only ever
  compares prices, negates them and uses them as dict keys; every concrete
  price in scope is a two-decimal literal, on which float comparison,
  negation and equality agree with the rational ones.
* `heapq` is abstracted by the multiset of its elements kept as an
  ascending-sorted list: `heap[0]` is the minimum, `heappush` inserts,
  `heappop` removes the minimum.  These are the only observations the
  program makes of the heap.
* Python `dict` (insertion ordered; only lookup, membership, item
  assignment and `del` are used) is an association list; a fresh key is
  appended at the end, assignment to an existing key keeps its position.
* Raising an exception is made explicit: operations that can raise return
  `Except PyErr`, and the order-processing loop returns the state it had
  mutated up to the raise (Python mutates the book in place, so the
  mutations performed before an exception persist in the caller).
* `account_id` is embedded as `Int` (`populate_for_testing` and
  `ClearingOrder` use integer account ids).
-/

inductive OrderSide where
  | BUY
  | SELL
deriving DecidableEq, Repr

inductive OrderType where
  | LIMIT
  | MARKET
deriving DecidableEq, Repr

/-- `utils.Order`, restricted to the fields the matching engine reads
(`timestamp` is never read by `order_book.py`). `price` is `none` for a
pure market order. -/
structure Order where
  account_id : Int
  side : OrderSide
  quantity : Int
  order_type : OrderType
  price : Option ℚ := none
deriving DecidableEq, Repr

/-- `clearing_house.ClearingOrder`: one fill ready for settlement. -/
structure ClearingOrder where
  buyside_account_id : Int
  sellside_account_id : Int
  price : ℚ
  quantity : Int
deriving DecidableEq, Repr

/-- Python exceptions the embedded code can raise. -/
inductive PyErr where
  | typeErr                -- e.g. `None < float`, `-None`
  | attrErr                -- attribute access on `None`
  | keyErr                 -- dict lookup of a missing key
  | indexErr               -- indexing an empty deque
  | valueErr (msg : String)
  | validationErr          -- pydantic model construction with a wrong type
  | fuelOut                -- artefact of the embedding: recursion budget spent
deriving DecidableEq, Repr

deriving instance DecidableEq for Except

/-- A price level's FIFO of orders (`OrderQueue.order_queue`); head of the
list is the front of the deque. -/
abbrev OrderQueue := List Order

/-- `order_dict`: price → queue, insertion ordered. Keys have type
`Option ℚ` because `Order.price` is optional and the source keys the dict
by `order.price` without checking it. -/
abbrev OrderDict := List (Option ℚ × OrderQueue)

def dictLookup (d : OrderDict) (k : Option ℚ) : Option OrderQueue :=
  (d.find? (fun kv => kv.1 == k)).map (·.2)

/-- Assignment to an existing key (keeps the key's position). -/
def dictSet (d : OrderDict) (k : Option ℚ) (v : OrderQueue) : OrderDict :=
  d.map (fun kv => if kv.1 == k then (kv.1, v) else kv)

/-- `del d[k]`. -/
def dictRemove (d : OrderDict) (k : Option ℚ) : OrderDict :=
  d.filter (fun kv => !(kv.1 == k))

/-- Sorted insert of a known rational into an all-`some` ascending list
(the branch hit when a `none` is present is cut off by `heapPush`'s guard
and never reached). -/
def insertPrice (a : ℚ) : List (Option ℚ) → List (Option ℚ)
  | [] => [some a]
  | some b :: t => if a ≤ b then some a :: some b :: t else some b :: insertPrice a t
  | none :: t => none :: t

/-- `heapq.heappush`.  Pushing onto an empty heap performs no comparison;
otherwise a comparison involving `None` raises `TypeError`. -/
def heapPush (x : Option ℚ) (h : List (Option ℚ)) : Except PyErr (List (Option ℚ)) :=
  match h with
  | [] => .ok [x]
  | _ :: _ =>
    match x with
    | none => .error .typeErr
    | some a => if h.all (·.isSome) then .ok (insertPrice a h) else .error .typeErr

/-- `AskHeap`: min-index of ask prices plus the price → queue mapping. -/
structure AskHeap where
  price_heap : List (Option ℚ)
  order_dict : OrderDict
deriving DecidableEq, Repr

/-- `BidHeap`: the heap holds *negated* prices (min-heap used as a
max-heap); the dict is keyed by the original price. -/
structure BidHeap where
  price_heap : List (Option ℚ)
  order_dict : OrderDict
deriving DecidableEq, Repr

/-- `AskHeap.add_ask`. -/
def add_ask (o : Order) (h : AskHeap) : Except PyErr AskHeap :=
  match dictLookup h.order_dict o.price with
  | some q => .ok ⟨h.price_heap, dictSet h.order_dict o.price (q ++ [o])⟩
  | none =>
    match heapPush o.price h.price_heap with
    | .error e => .error e
    | .ok hp => .ok ⟨hp, h.order_dict ++ [(o.price, [o])]⟩

/-- `BidHeap.add_bid`; the pushed key is `-order.price` (`-None` raises
`TypeError` before anything is mutated). -/
def add_bid (o : Order) (h : BidHeap) : Except PyErr BidHeap :=
  match dictLookup h.order_dict o.price with
  | some q => .ok ⟨h.price_heap, dictSet h.order_dict o.price (q ++ [o])⟩
  | none =>
    match o.price with
    | none => .error .typeErr
    | some p =>
      match heapPush (some (-p)) h.price_heap with
      | .error e => .error e
      | .ok hp => .ok ⟨hp, h.order_dict ++ [(o.price, [o])]⟩

/-- `AskHeap.peek_bottom_ask`: `None` on an empty heap, else the head
order of the queue at the minimal price. -/
def peek_bottom_ask (h : AskHeap) : Except PyErr (Option Order) :=
  match h.price_heap with
  | [] => .ok none
  | k :: _ =>
    match dictLookup h.order_dict k with
    | none => .error .keyErr
    | some [] => .error .indexErr
    | some (o :: _) => .ok (some o)

/-- `BidHeap.peek_top_bid`: the stored key is negated back
(`-1 * None` raises `TypeError`). -/
def peek_top_bid (h : BidHeap) : Except PyErr (Option Order) :=
  match h.price_heap with
  | [] => .ok none
  | none :: _ => .error .typeErr
  | some np :: _ =>
    match dictLookup h.order_dict (some (-np)) with
    | none => .error .keyErr
    | some [] => .error .indexErr
    | some (o :: _) => .ok (some o)

/-- `AskHeap.pop_bottom_ask`; removes the queue head at the best price and
evicts the price level when its queue empties. -/
def pop_bottom_ask (h : AskHeap) : Except PyErr (Option Order × AskHeap) :=
  match h.price_heap with
  | [] => .ok (none, h)
  | k :: rest =>
    match dictLookup h.order_dict k with
    | none => .error .keyErr
    | some [] => .error .indexErr
    | some (o :: q) =>
      if q = [] then .ok (some o, ⟨rest, dictRemove h.order_dict k⟩)
      else .ok (some o, ⟨h.price_heap, dictSet h.order_dict k q⟩)

/-- `BidHeap.pop_top_bid`. -/
def pop_top_bid (h : BidHeap) : Except PyErr (Option Order × BidHeap) :=
  match h.price_heap with
  | [] => .ok (none, h)
  | none :: _ => .error .typeErr
  | some np :: rest =>
    match dictLookup h.order_dict (some (-np)) with
    | none => .error .keyErr
    | some [] => .error .indexErr
    | some (o :: q) =>
      if q = [] then .ok (some o, ⟨rest, dictRemove h.order_dict (some (-np))⟩)
      else .ok (some o, ⟨h.price_heap, dictSet h.order_dict (some (-np)) q⟩)

/-- `order_dict[key].order_queue[0].quantity -= amt` (the in-place partial
fill of the resting head order). -/
def dict_decrement_head (d : OrderDict) (k : Option ℚ) (amt : Int) :
    Except PyErr OrderDict :=
  match dictLookup d k with
  | none => .error .keyErr
  | some [] => .error .indexErr
  | some (o :: rest) => .ok (dictSet d k ({ o with quantity := o.quantity - amt } :: rest))

/-- `OrderBook`: both sides plus the clearing house's order list
(`ClearingHouse.clearing_orders`; `add_clearing_order` appends). -/
structure OrderBook where
  bid_heap : BidHeap
  ask_heap : AskHeap
  clearing_house : List ClearingOrder
deriving DecidableEq, Repr

def empty_order_book : OrderBook := ⟨⟨[], []⟩, ⟨[], []⟩, []⟩

/-- Result of processing one order: the book as mutated so far, the
incoming order's residual quantity (mutated in place in the source), and
the exception that escaped, if any. -/
structure MOResult where
  book : OrderBook
  order_quantity : Int
  err : Option PyErr
deriving DecidableEq, Repr

/-- Python `a > b` on optional floats: comparing with `None` raises. -/
def pyGt (a b : Option ℚ) : Except PyErr Bool :=
  match a, b with
  | some x, some y => .ok (decide (y < x))
  | _, _ => .error .typeErr

/-- Python `a < b` on optional floats. -/
def pyLt (a b : Option ℚ) : Except PyErr Bool :=
  match a, b with
  | some x, some y => .ok (decide (x < y))
  | _, _ => .error .typeErr

/-- `OrderBook.crossed_spread`: a BUY crosses when `price > best_ask`, a
SELL when `price < best_bid`; an empty opposite side never crosses. -/
def crossed_spread (ob : OrderBook) (o : Order) : Except PyErr Bool :=
  match o.side with
  | .BUY =>
    match peek_bottom_ask ob.ask_heap with
    | .error e => .error e
    | .ok none => .ok false
    | .ok (some ba) => pyGt o.price ba.price
  | .SELL =>
    match peek_top_bid ob.bid_heap with
    | .error e => .error e
    | .ok none => .ok false
    | .ok (some tb) => pyLt o.price tb.price

/-- Outcome of the fill section of one loop iteration of
`handle_market_order`: either the `while` loop continues with the mutated
book and incoming order, or processing ends there (an exception escaped
after the mutations made so far). -/
inductive FillStep where
  | next (ob : OrderBook) (o : Order)
  | halt (r : MOResult)
deriving DecidableEq, Repr

/-- The three fill cases of the SELL branch of `handle_market_order`
(`top_bid.quantity` equal to, greater than, less than `order.quantity`),
each emitting one clearing order at the resting bid's price `tbp`. -/
def sell_fill_cases (ob : OrderBook) (o : Order) (tb : Order) (tbp : ℚ) : FillStep :=
  if tb.quantity = o.quantity then
    let ob1 := { ob with clearing_house := ob.clearing_house ++
      [⟨tb.account_id, o.account_id, tbp, o.quantity⟩] }
    match pop_top_bid ob1.bid_heap with
    | .error e => .halt ⟨ob1, o.quantity, some e⟩
    | .ok (_, bh) => .next { ob1 with bid_heap := bh } { o with quantity := 0 }
  else if tb.quantity > o.quantity then
    let ob1 := { ob with clearing_house := ob.clearing_house ++
      [⟨tb.account_id, o.account_id, tbp, o.quantity⟩] }
    match dict_decrement_head ob1.bid_heap.order_dict tb.price o.quantity with
    | .error e => .halt ⟨ob1, o.quantity, some e⟩
    | .ok d =>
      .next { ob1 with bid_heap := ⟨ob1.bid_heap.price_heap, d⟩ } { o with quantity := 0 }
  else
    let ob1 := { ob with clearing_house := ob.clearing_house ++
      [⟨tb.account_id, o.account_id, tbp, tb.quantity⟩] }
    match pop_top_bid ob1.bid_heap with
    | .error e => .halt ⟨ob1, o.quantity - tb.quantity, some e⟩
    | .ok (_, bh) =>
      .next { ob1 with bid_heap := bh } { o with quantity := o.quantity - tb.quantity }

/-- The three fill cases of the BUY branch, against the bottom ask. -/
def buy_fill_cases (ob : OrderBook) (o : Order) (ba : Order) (bap : ℚ) : FillStep :=
  if ba.quantity = o.quantity then
    let ob1 := { ob with clearing_house := ob.clearing_house ++
      [⟨o.account_id, ba.account_id, bap, o.quantity⟩] }
    match pop_bottom_ask ob1.ask_heap with
    | .error e => .halt ⟨ob1, o.quantity, some e⟩
    | .ok (_, ah) => .next { ob1 with ask_heap := ah } { o with quantity := 0 }
  else if ba.quantity > o.quantity then
    let ob1 := { ob with clearing_house := ob.clearing_house ++
      [⟨o.account_id, ba.account_id, bap, o.quantity⟩] }
    match dict_decrement_head ob1.ask_heap.order_dict ba.price o.quantity with
    | .error e => .halt ⟨ob1, o.quantity, some e⟩
    | .ok d =>
      .next { ob1 with ask_heap := ⟨ob1.ask_heap.price_heap, d⟩ } { o with quantity := 0 }
  else
    let ob1 := { ob with clearing_house := ob.clearing_house ++
      [⟨o.account_id, ba.account_id, bap, ba.quantity⟩] }
    match pop_bottom_ask ob1.ask_heap with
    | .error e => .halt ⟨ob1, o.quantity - ba.quantity, some e⟩
    | .ok (_, ah) =>
      .next { ob1 with ask_heap := ah } { o with quantity := o.quantity - ba.quantity }

mutual

/-- `OrderBook.handle_market_order`, one `while order.quantity > 0` loop
iteration per recursive call.  The fuel argument is an embedding artefact
bounding the recursion depth; `fuelOut` never occurs with sufficient fuel
(proved below).  Faithful to the source, the protective-price check
`order.price > top_bid.price` is performed *before* the
`top_bid is None` check, so a priced residual facing an empty opposite
side hits `AttributeError`. -/
def handle_market_go : Nat → OrderBook → Order → MOResult
  | 0, ob, o => ⟨ob, o.quantity, some .fuelOut⟩
  | fuel + 1, ob, o =>
    match o.side with
    | .SELL =>
      if o.quantity > 0 then
        match peek_top_bid ob.bid_heap with
        | .error e => ⟨ob, o.quantity, some e⟩
        | .ok top_bid =>
          match o.price, top_bid with
          | some _, none => ⟨ob, o.quantity, some .attrErr⟩
          | some p, some tb =>
            match tb.price with
            | none => ⟨ob, o.quantity, some .typeErr⟩
            | some tbp =>
              if p > tbp then handle_limit_go fuel ob o
              else
                match sell_fill_cases ob o tb tbp with
                | .halt r => r
                | .next ob2 o2 => handle_market_go fuel ob2 o2
          | none, none => ⟨ob, o.quantity, some (.valueErr "No bids to fill market order")⟩
          | none, some tb =>
            match tb.price with
            | none => ⟨ob, o.quantity, some .validationErr⟩
            | some tbp =>
              match sell_fill_cases ob o tb tbp with
              | .halt r => r
              | .next ob2 o2 => handle_market_go fuel ob2 o2
      else ⟨ob, o.quantity, none⟩
    | .BUY =>
      if o.quantity > 0 then
        match peek_bottom_ask ob.ask_heap with
        | .error e => ⟨ob, o.quantity, some e⟩
        | .ok bottom_ask =>
          match o.price, bottom_ask with
          | some _, none => ⟨ob, o.quantity, some .attrErr⟩
          | some p, some ba =>
            match ba.price with
            | none => ⟨ob, o.quantity, some .typeErr⟩
            | some bap =>
              if p < bap then handle_limit_go fuel ob o
              else
                match buy_fill_cases ob o ba bap with
                | .halt r => r
                | .next ob2 o2 => handle_market_go fuel ob2 o2
          | none, none => ⟨ob, o.quantity, some (.valueErr "No asks to fill market order")⟩
          | none, some ba =>
            match ba.price with
            | none => ⟨ob, o.quantity, some .validationErr⟩
            | some bap =>
              match buy_fill_cases ob o ba bap with
              | .halt r => r
              | .next ob2 o2 => handle_market_go fuel ob2 o2
      else ⟨ob, o.quantity, none⟩

/-- `OrderBook.handle_limit_order`: rest the order on its own side unless
it crosses the spread, in which case it is handled as a market order. -/
def handle_limit_go : Nat → OrderBook → Order → MOResult
  | 0, ob, o => ⟨ob, o.quantity, some .fuelOut⟩
  | fuel + 1, ob, o =>
    match o.side with
    | .BUY =>
      match crossed_spread ob o with
      | .error e => ⟨ob, o.quantity, some e⟩
      | .ok true => handle_market_go fuel ob o
      | .ok false =>
        match add_bid o ob.bid_heap with
        | .error e => ⟨ob, o.quantity, some e⟩
        | .ok bh => ⟨{ ob with bid_heap := bh }, o.quantity, none⟩
    | .SELL =>
      match crossed_spread ob o with
      | .error e => ⟨ob, o.quantity, some e⟩
      | .ok true => handle_market_go fuel ob o
      | .ok false =>
        match add_ask o ob.ask_heap with
        | .error e => ⟨ob, o.quantity, some e⟩
        | .ok ah => ⟨{ ob with ask_heap := ah }, o.quantity, none⟩

end

/-- `OrderBook.handle_market_order`, with a fuel budget that is proved
sufficient below whenever resting quantities are positive. -/
def handle_market_order (ob : OrderBook) (o : Order) : MOResult :=
  handle_market_go (o.quantity.toNat + 3) ob o

/-- `OrderBook.handle_limit_order` entry point. -/
def handle_limit_order (ob : OrderBook) (o : Order) : MOResult :=
  handle_limit_go (o.quantity.toNat + 3) ob o

/-- `OrderBook.send_order`: dispatch on the order type.  An order whose
type is neither LIMIT nor MARKET falls through silently (the source's
`if`/`elif` has no `else`); with the two-member `OrderType` enum that
branch is unreachable. -/
def send_order (ob : OrderBook) (o : Order) : MOResult :=
  if o.order_type = OrderType.LIMIT then handle_limit_order ob o
  else if o.order_type = OrderType.MARKET then handle_market_order ob o
  else ⟨ob, o.quantity, none⟩

/-- `populate_for_testing`'s ask price list:
`[round(100 + (i+1)*0.10, 2) for i in range(5)] * 2`
(the two-decimal rounding is the identity on these values; `mkRat n 10`
is the exact value of the two-decimal float `n/10`). -/
def ask_prices : List ℚ :=
  (List.range 5).map (fun i => mkRat (1000 + ((i : Int) + 1)) 10) ++
    (List.range 5).map (fun i => mkRat (1000 + ((i : Int) + 1)) 10)

/-- `populate_for_testing`'s bid price list. -/
def bid_prices : List ℚ :=
  (List.range 5).map (fun i => mkRat (1000 - ((i : Int) + 1)) 10) ++
    (List.range 5).map (fun i => mkRat (1000 - ((i : Int) + 1)) 10)

/-- One iteration of the populating loops: send a LIMIT order of quantity
100 with the running `id_counter` as account id, then increment it. -/
def populate_step (side : OrderSide) : OrderBook × Int → ℚ → OrderBook × Int :=
  fun s p =>
    ((send_order s.1 ⟨s.2, side, 100, .LIMIT, some p⟩).book, s.2 + 1)

/-- `OrderBook.populate_for_testing` (src/order_book.py:238): two SELL
LIMIT orders of 100 at each of 100.10..100.50 (account ids 1..10, in list
order), then two BUY LIMIT orders of 100 at each of 99.90..99.50 (account
ids 11..20). -/
def populate_for_testing : OrderBook :=
  (bid_prices.foldl (populate_step .BUY)
    (ask_prices.foldl (populate_step .SELL) (empty_order_book, 1))).1

/-- The SELL MARKET order of the spec's end-to-end scenario 1. -/
def c2_order : Order := ⟨98, .SELL, 350, .MARKET, none⟩

/-- The fill sequence the claim asserts for that scenario. -/
def c2_claimed_fills : List ClearingOrder :=
  [⟨11, 98, mkRat 999 10, 100⟩, ⟨12, 98, mkRat 999 10, 100⟩,
   ⟨13, 98, mkRat 998 10, 100⟩, ⟨14, 98, mkRat 998 10, 50⟩]

/-- The fill sequence the code actually emits: the populator assigns
account ids pass-wise, so the bid level 99.90 queues accounts 11 then 16,
and 99.80 queues 12 then 17. -/
def c2_actual_fills : List ClearingOrder :=
  [⟨11, 98, mkRat 999 10, 100⟩, ⟨16, 98, mkRat 999 10, 100⟩,
   ⟨12, 98, mkRat 998 10, 100⟩, ⟨17, 98, mkRat 998 10, 50⟩]

/-- Claim C2 as stated is false: submitting SELL MARKET 350 from account
98 against the test-populated book does not emit the claimed fill
sequence (the second fill's buyer is account 16, not 12). -/
theorem c2_fills_counterexample :
    (handle_market_order populate_for_testing c2_order).book.clearing_house ≠
      c2_claimed_fills := by
  decide

/-- Claim C2, amended: the same scenario emits the fills
(11, 98, 99.90, 100), (16, 98, 99.90, 100), (12, 98, 99.80, 100),
(17, 98, 99.80, 50) in that order, completes without error, and leaves
the best bid at 99.80 with 50 remaining on its head order. -/
theorem c2_fills_amended :
    (handle_market_order populate_for_testing c2_order).book.clearing_house =
        c2_actual_fills ∧
      (handle_market_order populate_for_testing c2_order).err = none ∧
      (handle_market_order populate_for_testing c2_order).order_quantity = 0 ∧
      peek_top_bid (handle_market_order populate_for_testing c2_order).book.bid_heap =
        .ok (some ⟨17, .BUY, 50, .LIMIT, some (mkRat 998 10)⟩) := by
  refine ⟨by decide, by decide, by decide, by decide⟩

/-- Seed book for C3's failing input: a single resting bid, account 1,
100 shares at 100.00. -/
def c3_book : OrderBook :=
  (send_order empty_order_book ⟨1, .BUY, 100, .LIMIT, some 100⟩).book

/-- C3's incoming order: a crossing SELL LIMIT, account 2, 200 shares,
limit 99.00, which exhausts the bid side with residual 100. -/
def c3_order : Order := ⟨2, .SELL, 200, .LIMIT, some 99⟩

/-- Claim C3 fails on the code: when a crossing LIMIT still has residual
quantity as the opposite side becomes empty, the next loop iteration
evaluates `order.price > top_bid.price` with `top_bid = None` and raises
`AttributeError` instead of resting the residual.  The partial fill
already emitted is retained, the residual 100 rests nowhere (the ask side
stays empty). -/
theorem c3_crossing_residual_faults :
    (send_order c3_book c3_order).err = some .attrErr ∧
      (send_order c3_book c3_order).book.clearing_house = [⟨1, 2, 100, 100⟩] ∧
      (send_order c3_book c3_order).book.ask_heap = ⟨[], []⟩ ∧
      (send_order c3_book c3_order).order_quantity = 100 := by
  refine ⟨by decide, by decide, by decide, by decide⟩

/-- C6's failing input: a SELL LIMIT with a missing price sent to an
empty book. -/
def c6_order : Order := ⟨1, .SELL, 100, .LIMIT, none⟩

/-- Claim C6 fails on the code: a LIMIT order with a missing price is not
rejected.  On an empty book a SELL LIMIT with `price = None` rests in the
ask side at a `None` price level — no exception, and the book changes. -/
theorem c6_missing_price_rests :
    (send_order empty_order_book c6_order).err = none ∧
      (send_order empty_order_book c6_order).book.ask_heap =
        ⟨[none], [(none, [c6_order])]⟩ := by
  refine ⟨by decide, by decide⟩

/-- Seed book for C4: one resting ask, account 1, 100 shares at 100.10. -/
def c4_book : OrderBook :=
  (send_order empty_order_book ⟨1, .SELL, 100, .LIMIT, some (mkRat 1001 10)⟩).book

/-- A LIMIT BUY priced exactly at the best ask 100.10. -/
def c4_order : Order := ⟨2, .BUY, 50, .LIMIT, some (mkRat 1001 10)⟩

/-- Claim C4 as stated is false: a LIMIT BUY at exactly the best ask does
*not* cross under the strict `price > best_ask` convention — it is rested
on the bid side and no fill is emitted. -/
theorem c4_equal_price_counterexample :
    crossed_spread c4_book c4_order = .ok false ∧
      (send_order c4_book c4_order).book.clearing_house = [] ∧
      dictLookup (send_order c4_book c4_order).book.bid_heap.order_dict
        (some (mkRat 1001 10)) = some [c4_order] := by
  refine ⟨by decide, by decide, by decide⟩

/-- Claim C4, amended: a BUY LIMIT crosses iff its price is strictly
greater than the best ask's price (so at exactly the best ask it does not
cross), and with an empty ask side it never crosses. -/
theorem c4_crossing_strict :
    (∀ (ob : OrderBook) (o : Order) (p : ℚ) (ba : Order) (bap : ℚ),
        o.side = .BUY → o.price = some p →
        peek_bottom_ask ob.ask_heap = .ok (some ba) → ba.price = some bap →
        (crossed_spread ob o = .ok true ↔ bap < p)) ∧
    (∀ (ob : OrderBook) (o : Order), o.side = .BUY →
        ob.ask_heap.price_heap = [] → crossed_spread ob o = .ok false) := by
  constructor
  · intro ob o p ba bap hside hp hpeek hba
    rcases o with ⟨acct, side, qty, otype, price⟩
    simp only at hside hp
    subst hside hp
    simp only [crossed_spread, hpeek, pyGt, hba]
    constructor
    · intro h
      have := congrArg (fun r => r = Except.ok true) h
      by_contra hlt
      simp [hlt] at h
    · intro h
      simp [h]
  · intro ob o hside hheap
    rcases o with ⟨acct, side, qty, otype, price⟩
    simp only at hside
    subst hside
    simp [crossed_spread, peek_bottom_ask, hheap]

/-- Witness for `c4_crossing_strict` at concrete inputs: a BUY at 100.20
against a best ask of 100.10 crosses, and any BUY into an empty ask side
does not. -/
theorem c4_crossing_strict_witness :
    (crossed_spread c4_book ⟨2, .BUY, 50, .LIMIT, some (mkRat 1002 10)⟩ = .ok true ↔
        mkRat 1001 10 < mkRat 1002 10) ∧
      crossed_spread empty_order_book ⟨2, .BUY, 50, .LIMIT, some 100⟩ = .ok false :=
  ⟨c4_crossing_strict.1 c4_book ⟨2, .BUY, 50, .LIMIT, some (mkRat 1002 10)⟩
      (mkRat 1002 10) ⟨1, .SELL, 100, .LIMIT, some (mkRat 1001 10)⟩ (mkRat 1001 10)
      rfl rfl (by decide) rfl,
    c4_crossing_strict.2 empty_order_book ⟨2, .BUY, 50, .LIMIT, some 100⟩ rfl rfl⟩

/-- Claim C5: a pure MARKET order (no protective price) with positive
residual quantity facing an empty opposite side raises the no-liquidity
`ValueError`; the book — including every clearing order already emitted,
which lives in `clearing_house` — is exactly retained, and the residual
is unchanged (no rollback). -/
theorem c5_no_liquidity :
    (∀ (ob : OrderBook) (o : Order), o.side = .SELL → o.price = none →
        0 < o.quantity → ob.bid_heap.price_heap = [] →
        handle_market_order ob o =
          ⟨ob, o.quantity, some (.valueErr "No bids to fill market order")⟩) ∧
    (∀ (ob : OrderBook) (o : Order), o.side = .BUY → o.price = none →
        0 < o.quantity → ob.ask_heap.price_heap = [] →
        handle_market_order ob o =
          ⟨ob, o.quantity, some (.valueErr "No asks to fill market order")⟩) := by
  constructor
  · intro ob o hside hp hq hheap
    rcases o with ⟨acct, side, qty, otype, price⟩
    simp only at hside hp hq
    subst hside hp
    simp [handle_market_order, handle_market_go, peek_top_bid, hheap, hq]
  · intro ob o hside hp hq hheap
    rcases o with ⟨acct, side, qty, otype, price⟩
    simp only at hside hp hq
    subst hside hp
    simp [handle_market_order, handle_market_go, peek_bottom_ask, hheap, hq]

/-- Witness for `c5_no_liquidity`: a SELL MARKET for 50 shares into a
book with no bids (but a non-empty ask side and one prior fill in the
clearing house) fails with the no-liquidity error and leaves that book,
prior fill included, untouched. -/
theorem c5_no_liquidity_witness :
    handle_market_order
        ⟨⟨[], []⟩, c4_book.ask_heap, [⟨7, 8, 100, 10⟩]⟩
        ⟨98, .SELL, 50, .MARKET, none⟩ =
      ⟨⟨⟨[], []⟩, c4_book.ask_heap, [⟨7, 8, 100, 10⟩]⟩, 50,
        some (.valueErr "No bids to fill market order")⟩ :=
  c5_no_liquidity.1 ⟨⟨[], []⟩, c4_book.ask_heap, [⟨7, 8, 100, 10⟩]⟩
    ⟨98, .SELL, 50, .MARKET, none⟩ rfl rfl (by decide) rfl

/-- The bid side after one match against head counter `tb` resting at
price `bp` (queue tail `qrest`, heap tail `hrest`) for a matched quantity
`m`: the counter is removed exactly when its quantity reaches zero
(evicting the price level if its queue empties), otherwise its quantity
is decremented in place. -/
def matched_bid_heap (bh : BidHeap) (bp : ℚ) (tb : Order) (qrest : OrderQueue)
    (hrest : List (Option ℚ)) (m : Int) : BidHeap :=
  if tb.quantity - m = 0 then
    if qrest = [] then ⟨hrest, dictRemove bh.order_dict (some bp)⟩
    else ⟨bh.price_heap, dictSet bh.order_dict (some bp) qrest⟩
  else ⟨bh.price_heap, dictSet bh.order_dict (some bp)
    ({ tb with quantity := tb.quantity - m } :: qrest)⟩

/-- Ask-side analogue of `matched_bid_heap`. -/
def matched_ask_heap (ah : AskHeap) (ap : ℚ) (ba : Order) (qrest : OrderQueue)
    (hrest : List (Option ℚ)) (m : Int) : AskHeap :=
  if ba.quantity - m = 0 then
    if qrest = [] then ⟨hrest, dictRemove ah.order_dict (some ap)⟩
    else ⟨ah.price_heap, dictSet ah.order_dict (some ap) qrest⟩
  else ⟨ah.price_heap, dictSet ah.order_dict (some ap)
    ({ ba with quantity := ba.quantity - m } :: qrest)⟩

lemma sell_fill_spec (ob : OrderBook) (o tb : Order) (bp : ℚ) (qrest : OrderQueue)
    (hrest : List (Option ℚ))
    (hheap : ob.bid_heap.price_heap = some (-bp) :: hrest)
    (hlook : dictLookup ob.bid_heap.order_dict (some bp) = some (tb :: qrest))
    (htb : tb.price = some bp) :
    sell_fill_cases ob o tb bp =
      .next ⟨matched_bid_heap ob.bid_heap bp tb qrest hrest (min o.quantity tb.quantity),
          ob.ask_heap,
          ob.clearing_house ++
            [⟨tb.account_id, o.account_id, bp, min o.quantity tb.quantity⟩]⟩
        { o with quantity := o.quantity - min o.quantity tb.quantity } := by
  rcases lt_trichotomy tb.quantity o.quantity with h | h | h
  · have h1 : ¬ (tb.quantity = o.quantity) := ne_of_lt h
    have h2 : ¬ (tb.quantity > o.quantity) := not_lt.mpr h.le
    have hm : min o.quantity tb.quantity = tb.quantity := min_eq_right h.le
    simp only [sell_fill_cases, h1, h2, if_false, ite_false, pop_top_bid, hheap,
      neg_neg, hlook, hm, matched_bid_heap, sub_self, if_true, ite_true]
    rcases qrest with _ | ⟨q0, qs⟩ <;> simp
  · have hm : min o.quantity tb.quantity = tb.quantity := min_eq_right h.le
    simp only [sell_fill_cases, h, if_true, ite_true, pop_top_bid, hheap, neg_neg,
      hlook, hm, matched_bid_heap, sub_self]
    rcases qrest with _ | ⟨q0, qs⟩ <;> simp [h]
  · have h1 : ¬ (tb.quantity = o.quantity) := ne_of_gt h
    have h2 : tb.quantity > o.quantity := h
    have hm : min o.quantity tb.quantity = o.quantity := min_eq_left h.le
    have h3 : ¬ (tb.quantity - o.quantity = 0) := by omega
    simp only [sell_fill_cases, h1, h2, if_false, ite_false, if_true, ite_true,
      dict_decrement_head, htb, hlook, hm, matched_bid_heap, h3, sub_self]

lemma buy_fill_spec (ob : OrderBook) (o ba : Order) (ap : ℚ) (qrest : OrderQueue)
    (hrest : List (Option ℚ))
    (hheap : ob.ask_heap.price_heap = some ap :: hrest)
    (hlook : dictLookup ob.ask_heap.order_dict (some ap) = some (ba :: qrest))
    (hba : ba.price = some ap) :
    buy_fill_cases ob o ba ap =
      .next ⟨ob.bid_heap,
          matched_ask_heap ob.ask_heap ap ba qrest hrest (min o.quantity ba.quantity),
          ob.clearing_house ++
            [⟨o.account_id, ba.account_id, ap, min o.quantity ba.quantity⟩]⟩
        { o with quantity := o.quantity - min o.quantity ba.quantity } := by
  rcases lt_trichotomy ba.quantity o.quantity with h | h | h
  · have h1 : ¬ (ba.quantity = o.quantity) := ne_of_lt h
    have h2 : ¬ (ba.quantity > o.quantity) := not_lt.mpr h.le
    have hm : min o.quantity ba.quantity = ba.quantity := min_eq_right h.le
    simp only [buy_fill_cases, h1, h2, if_false, ite_false, pop_bottom_ask, hheap,
      hlook, hm, matched_ask_heap, sub_self, if_true, ite_true]
    rcases qrest with _ | ⟨q0, qs⟩ <;> simp
  · have hm : min o.quantity ba.quantity = ba.quantity := min_eq_right h.le
    simp only [buy_fill_cases, h, if_true, ite_true, pop_bottom_ask, hheap, hlook,
      hm, matched_ask_heap, sub_self]
    rcases qrest with _ | ⟨q0, qs⟩ <;> simp [h]
  · have h1 : ¬ (ba.quantity = o.quantity) := ne_of_gt h
    have h2 : ba.quantity > o.quantity := h
    have hm : min o.quantity ba.quantity = o.quantity := min_eq_left h.le
    have h3 : ¬ (ba.quantity - o.quantity = 0) := by omega
    simp only [buy_fill_cases, h1, h2, if_false, ite_false, if_true, ite_true,
      dict_decrement_head, hba, hlook, hm, matched_ask_heap, h3, sub_self]

/-- Claim C1: one match step of `handle_market_order` against a non-empty
opposite side whose best resting order is the counter (resting at its own
price level, at the head of the best price's queue).  Whenever the
protective-price check does not divert the order, the iteration appends
exactly one clearing order of quantity `min(incoming, counter)` at the
counter's price, decrements the incoming residual and the counter by that
same quantity, and removes the counter exactly when its quantity reaches
zero — for all three cases `counter.quantity ==, >, <
incoming.quantity`.  First conjunct: SELL against the top bid; second:
BUY against the bottom ask. -/
theorem c1_match_step :
    (∀ (ob : OrderBook) (o tb : Order) (bp : ℚ) (qrest : OrderQueue)
        (hrest : List (Option ℚ)) (fuel : Nat),
        o.side = .SELL → 0 < o.quantity →
        ob.bid_heap.price_heap = some (-bp) :: hrest →
        dictLookup ob.bid_heap.order_dict (some bp) = some (tb :: qrest) →
        tb.price = some bp →
        (o.price = none ∨ ∃ p, o.price = some p ∧ ¬ bp < p) →
        handle_market_go (fuel + 1) ob o =
          handle_market_go fuel
            ⟨matched_bid_heap ob.bid_heap bp tb qrest hrest
                (min o.quantity tb.quantity),
              ob.ask_heap,
              ob.clearing_house ++
                [⟨tb.account_id, o.account_id, bp, min o.quantity tb.quantity⟩]⟩
            { o with quantity := o.quantity - min o.quantity tb.quantity }) ∧
    (∀ (ob : OrderBook) (o ba : Order) (ap : ℚ) (qrest : OrderQueue)
        (hrest : List (Option ℚ)) (fuel : Nat),
        o.side = .BUY → 0 < o.quantity →
        ob.ask_heap.price_heap = some ap :: hrest →
        dictLookup ob.ask_heap.order_dict (some ap) = some (ba :: qrest) →
        ba.price = some ap →
        (o.price = none ∨ ∃ p, o.price = some p ∧ ¬ p < ap) →
        handle_market_go (fuel + 1) ob o =
          handle_market_go fuel
            ⟨ob.bid_heap,
              matched_ask_heap ob.ask_heap ap ba qrest hrest
                (min o.quantity ba.quantity),
              ob.clearing_house ++
                [⟨o.account_id, ba.account_id, ap, min o.quantity ba.quantity⟩]⟩
            { o with quantity := o.quantity - min o.quantity ba.quantity }) := by
  constructor
  · intro ob o tb bp qrest hrest fuel hside hq hheap hlook htb hgate
    have hpeek : peek_top_bid ob.bid_heap = .ok (some tb) := by
      simp [peek_top_bid, hheap, neg_neg, hlook]
    have hfill := sell_fill_spec ob o tb bp qrest hrest hheap hlook htb
    rcases o with ⟨acct, side, qty, otype, price⟩
    simp only at hside hq
    subst hside
    rcases hgate with hp | ⟨p, hp, hgt⟩ <;> simp only at hp <;> subst hp
    · simp only [handle_market_go, hq, if_true, ite_true, hpeek, htb, hfill]
    · simp only [handle_market_go, hq, if_true, ite_true, hpeek, htb]
      rw [if_neg hgt]
      simp only [hfill]
  · intro ob o ba ap qrest hrest fuel hside hq hheap hlook hba hgate
    have hpeek : peek_bottom_ask ob.ask_heap = .ok (some ba) := by
      simp [peek_bottom_ask, hheap, hlook]
    have hfill := buy_fill_spec ob o ba ap qrest hrest hheap hlook hba
    rcases o with ⟨acct, side, qty, otype, price⟩
    simp only at hside hq
    subst hside
    rcases hgate with hp | ⟨p, hp, hlt⟩ <;> simp only at hp <;> subst hp
    · simp only [handle_market_go, hq, if_true, ite_true, hpeek, hba, hfill]
    · simp only [handle_market_go, hq, if_true, ite_true, hpeek, hba]
      rw [if_neg hlt]
      simp only [hfill]

/-- Witness for `c1_match_step`: a SELL MARKET 30 against a single
resting bid of 100 at 100.00, and a BUY MARKET 250 against a single
resting ask of 100 at 100.10, each performing one concrete match step. -/
theorem c1_match_step_witness :
    (handle_market_go 4 c3_book ⟨98, .SELL, 30, .MARKET, none⟩ =
      handle_market_go 3
        ⟨matched_bid_heap c3_book.bid_heap 100 ⟨1, .BUY, 100, .LIMIT, some 100⟩ [] []
            (min 30 100),
          c3_book.ask_heap,
          c3_book.clearing_house ++ [⟨1, 98, 100, min 30 100⟩]⟩
        ⟨98, .SELL, 30 - min 30 100, .MARKET, none⟩) ∧
    (handle_market_go 4 c4_book ⟨99, .BUY, 250, .MARKET, none⟩ =
      handle_market_go 3
        ⟨c4_book.bid_heap,
          matched_ask_heap c4_book.ask_heap (mkRat 1001 10)
            ⟨1, .SELL, 100, .LIMIT, some (mkRat 1001 10)⟩ [] [] (min 250 100),
          c4_book.clearing_house ++ [⟨99, 1, mkRat 1001 10, min 250 100⟩]⟩
        ⟨99, .BUY, 250 - min 250 100, .MARKET, none⟩) :=
  ⟨c1_match_step.1 c3_book ⟨98, .SELL, 30, .MARKET, none⟩
      ⟨1, .BUY, 100, .LIMIT, some 100⟩ 100 [] [] 3 rfl (by decide) (by decide)
      (by decide) rfl (Or.inl rfl),
    c1_match_step.2 c4_book ⟨99, .BUY, 250, .MARKET, none⟩
      ⟨1, .SELL, 100, .LIMIT, some (mkRat 1001 10)⟩ (mkRat 1001 10) [] [] 3 rfl
      (by decide) (by decide) (by decide) rfl (Or.inl rfl)⟩

/-- The keys of an order dict, in order. -/
def dictKeys (d : OrderDict) : List (Option ℚ) := d.map (·.1)

lemma dictKeys_dictSet (d : OrderDict) (k : Option ℚ) (v : OrderQueue) :
    dictKeys (dictSet d k v) = dictKeys d := by
  induction d with
  | nil => rfl
  | cons kv t ih =>
    by_cases h : kv.1 = k <;> simp [dictSet, dictKeys, h] at ih ⊢ <;>
      simpa [dictSet, dictKeys] using ih

lemma dictKeys_dictRemove (d : OrderDict) (k : Option ℚ) :
    dictKeys (dictRemove d k) = (dictKeys d).filter (fun x => !(x == k)) := by
  induction d with
  | nil => rfl
  | cons kv t ih =>
    by_cases h : kv.1 = k <;> simp [dictRemove, dictKeys, h, List.filter_cons] at ih ⊢ <;>
      simpa [dictRemove, dictKeys] using ih

lemma mem_dictSet {d : OrderDict} {k : Option ℚ} {v : OrderQueue} {kv : Option ℚ × OrderQueue}
    (h : kv ∈ dictSet d k v) : kv.2 = v ∨ kv ∈ d := by
  rcases List.mem_map.mp h with ⟨kv0, hkv0, heq⟩
  by_cases h0 : kv0.1 = k
  · left
    simp [h0] at heq
    simp [← heq]
  · right
    simp [h0] at heq
    simpa [← heq] using hkv0

lemma mem_dictRemove {d : OrderDict} {k : Option ℚ} {kv : Option ℚ × OrderQueue}
    (h : kv ∈ dictRemove d k) : kv ∈ d :=
  List.mem_of_mem_filter h

lemma dictLookup_mem {d : OrderDict} {k : Option ℚ} {q : OrderQueue}
    (h : dictLookup d k = some q) : (k, q) ∈ d := by
  unfold dictLookup at h
  rcases Option.map_eq_some'.mp h with ⟨kv, hfind, h2⟩
  have hk : kv.1 = k := by
    have := List.find?_some hfind
    simpa using this
  have hmem := List.mem_of_find?_eq_some hfind
  have : kv = (k, q) := by
    rcases kv with ⟨a, b⟩
    simp at hk h2
    simp [hk, h2]
  simpa [this] using hmem

lemma dictLookup_isSome_of_mem {d : OrderDict} {k : Option ℚ}
    (h : k ∈ dictKeys d) : ∃ q, dictLookup d k = some q := by
  induction d with
  | nil => simp [dictKeys] at h
  | cons kv t ih =>
    by_cases h0 : kv.1 = k
    · exact ⟨kv.2, by simp [dictLookup, List.find?_cons, h0]⟩
    · have : k ∈ dictKeys t := by
        simp [dictKeys] at h ⊢
        rcases h with h | h
        · exact absurd h.symm h0
        · simpa [dictKeys] using h
      rcases ih this with ⟨q, hq⟩
      exact ⟨q, by simpa [dictLookup, List.find?_cons, h0] using hq⟩

lemma not_mem_of_dictLookup_none {d : OrderDict} {k : Option ℚ}
    (h : dictLookup d k = none) : k ∉ dictKeys d := by
  intro hmem
  rcases dictLookup_isSome_of_mem hmem with ⟨q, hq⟩
  rw [h] at hq
  cases hq

lemma mem_insertPrice {a : ℚ} {l : List (Option ℚ)} (hl : ∀ y ∈ l, y.isSome = true)
    {x : Option ℚ} : x ∈ insertPrice a l ↔ x = some a ∨ x ∈ l := by
  induction l with
  | nil => simp [insertPrice]
  | cons y t ih =>
    rcases y with _ | b
    · exact absurd (hl none (by simp)) (by simp)
    · have ht : ∀ y ∈ t, y.isSome = true := fun y hy => hl y (by simp [hy])
      by_cases hab : a ≤ b
      · simp only [insertPrice, hab, if_true, ite_true, List.mem_cons]
      · simp only [insertPrice, hab, if_false, ite_false, List.mem_cons, ih ht]
        tauto

lemma isSome_insertPrice {a : ℚ} {l : List (Option ℚ)} (hl : ∀ y ∈ l, y.isSome = true) :
    ∀ x ∈ insertPrice a l, x.isSome = true := by
  intro x hx
  rcases (mem_insertPrice hl).mp hx with h | h
  · simp [h]
  · exact hl x h

lemma nodup_insertPrice {a : ℚ} {l : List (Option ℚ)} (hl : ∀ y ∈ l, y.isSome = true)
    (hn : l.Nodup) (ha : some a ∉ l) : (insertPrice a l).Nodup := by
  induction l with
  | nil => simp [insertPrice]
  | cons y t ih =>
    rcases y with _ | b
    · exact absurd (hl none (by simp)) (by simp)
    · have ht : ∀ y ∈ t, y.isSome = true := fun y hy => hl y (by simp [hy])
      rcases List.nodup_cons.mp hn with ⟨hbt, hnt⟩
      by_cases hab : a ≤ b
      · rw [show insertPrice a (some b :: t) = some a :: some b :: t by
          simp [insertPrice, hab]]
        refine List.nodup_cons.mpr ⟨?_, hn⟩
        intro hmem
        simp at hmem
        rcases hmem with h | h
        · exact ha (by simp [h])
        · exact ha (by simp [h])
      · have hat : some a ∉ t := fun h => ha (by simp [h])
        rw [show insertPrice a (some b :: t) = some b :: insertPrice a t by
          simp [insertPrice, hab]]
        refine List.nodup_cons.mpr ⟨?_, ih ht hnt hat⟩
        intro hmem
        rcases (mem_insertPrice ht).mp hmem with h | h
        · have hba : a = b := by simpa using h.symm
          exact hab (le_of_eq hba)
        · exact hbt h
      

lemma heapPush_ok {p : ℚ} {l : List (Option ℚ)} (hl : ∀ y ∈ l, y.isSome = true) :
    heapPush (some p) l = .ok (insertPrice p l) := by
  cases l with
  | nil => rfl
  | cons y t => simp [heapPush, List.all_eq_true.mpr hl]

/-- Well-formedness of an ask side: the heap has no duplicates and no
`None`, the dict keys are duplicate-free, heap membership coincides with
key membership, and every queue is non-empty. -/
def AskWF (h : AskHeap) : Prop :=
  h.price_heap.Nodup ∧ (∀ x ∈ h.price_heap, x.isSome = true) ∧
  (dictKeys h.order_dict).Nodup ∧
  (∀ x, x ∈ h.price_heap ↔ x ∈ dictKeys h.order_dict) ∧
  (∀ kv ∈ h.order_dict, kv.2 ≠ [])

/-- The negated-heap view of a bid side's price index ("undoing the
bid-side negation"). -/
def negKeys (l : List (Option ℚ)) : List (Option ℚ) :=
  l.map (Option.map (fun q : ℚ => -q))

/-- Well-formedness of a bid side; the heap stores negated prices, so the
membership correspondence goes through `negKeys`. -/
def BidWF (h : BidHeap) : Prop :=
  h.price_heap.Nodup ∧ (∀ x ∈ h.price_heap, x.isSome = true) ∧
  (dictKeys h.order_dict).Nodup ∧
  (∀ x, x ∈ negKeys h.price_heap ↔ x ∈ dictKeys h.order_dict) ∧
  (∀ kv ∈ h.order_dict, kv.2 ≠ [])

lemma askWF_add {h h' : AskHeap} {o : Order} {p : ℚ}
    (hw : AskWF h) (hp : o.price = some p) (hadd : add_ask o h = .ok h') : AskWF h' := by
  obtain ⟨hnd, hsome, hknd, hiff, hne⟩ := hw
  cases hl : dictLookup h.order_dict o.price with
  | some q =>
    simp only [add_ask, hl, Except.ok.injEq] at hadd
    subst hadd
    refine ⟨hnd, hsome, ?_, ?_, ?_⟩
    · simpa [dictKeys_dictSet] using hknd
    · intro x
      rw [dictKeys_dictSet]
      exact hiff x
    · intro kv hkv
      rcases mem_dictSet hkv with h2 | h2
      · simp [h2]
      · exact hne kv h2
  | none =>
    rw [hp] at hl
    simp only [add_ask, hp, hl, heapPush_ok hsome, Except.ok.injEq] at hadd
    subst hadd
    have hnp : some p ∉ h.price_heap :=
      fun hm => not_mem_of_dictLookup_none hl ((hiff _).mp hm)
    have hnk : some p ∉ dictKeys h.order_dict := fun hm => (hnp ((hiff _).mpr hm))
    have hkeys : dictKeys (h.order_dict ++ [(some p, [o])]) =
        dictKeys h.order_dict ++ [some p] := by simp [dictKeys]
    refine ⟨nodup_insertPrice hsome hnd hnp, isSome_insertPrice hsome, ?_, ?_, ?_⟩
    · rw [hkeys]
      simpa [List.nodup_append] using ⟨hknd, hnk⟩
    · intro x
      rw [hkeys, mem_insertPrice hsome]
      simp [hiff x]
      tauto
    · intro kv hkv
      rcases List.mem_append.mp hkv with h2 | h2
      · exact hne kv h2
      · simp at h2
        simp [h2]

lemma askWF_pop {h h' : AskHeap} {r : Option Order}
    (hw : AskWF h) (hpop : pop_bottom_ask h = .ok (r, h')) : AskWF h' := by
  obtain ⟨hnd, hsome, hknd, hiff, hne⟩ := hw
  cases hh : h.price_heap with
  | nil =>
    simp only [pop_bottom_ask, hh, Except.ok.injEq, Prod.mk.injEq] at hpop
    rw [← hpop.2]
    exact ⟨hnd, hsome, hknd, hiff, hne⟩
  | cons k rest =>
    simp only [pop_bottom_ask, hh] at hpop
    cases hl : dictLookup h.order_dict k with
    | none => simp [hl] at hpop
    | some ql =>
      cases ql with
      | nil => simp [hl] at hpop
      | cons o q =>
        simp only [hl] at hpop
        rw [hh] at hnd hiff hsome
        have hkrest : k ∉ rest := (List.nodup_cons.mp hnd).1
        have hndrest : rest.Nodup := (List.nodup_cons.mp hnd).2
        by_cases hq : q = []
        · rw [if_pos hq] at hpop
          simp only [Except.ok.injEq, Prod.mk.injEq] at hpop
          rw [← hpop.2]
          refine ⟨hndrest, ?_, ?_, ?_, ?_⟩
          · intro x hx
            exact hsome x (by simp [hx])
          · rw [dictKeys_dictRemove]
            exact hknd.filter _
          · intro x
            rw [dictKeys_dictRemove, List.mem_filter]
            constructor
            · intro hx
              have hxk : x ≠ k := fun he => hkrest (he ▸ hx)
              exact ⟨(hiff x).mp (by simp [hx]), by simpa using hxk⟩
            · rintro ⟨hx, hxk⟩
              have := (hiff x).mpr hx
              simp at this
              rcases this with he | hr
              · exact absurd he (by simpa using hxk)
              · exact hr
          · intro kv hkv
            exact hne kv (mem_dictRemove hkv)
        · rw [if_neg hq] at hpop
          simp only [Except.ok.injEq, Prod.mk.injEq] at hpop
          rw [← hpop.2]
          refine ⟨hnd, ?_, ?_, ?_, ?_⟩
          · intro x hx
            exact hsome x hx
          · simpa [dictKeys_dictSet] using hknd
          · intro x
            rw [dictKeys_dictSet]
            exact hiff x
          · intro kv hkv
            rcases mem_dictSet hkv with h2 | h2
            · rw [h2]; exact hq
            · exact hne kv h2

lemma mem_negKeys {l : List (Option ℚ)} {x : Option ℚ} :
    x ∈ negKeys l ↔ ∃ y ∈ l, Option.map (fun q : ℚ => -q) y = x := by
  simp [negKeys]

lemma bidWF_add {h h' : BidHeap} {o : Order} {p : ℚ}
    (hw : BidWF h) (hp : o.price = some p) (hadd : add_bid o h = .ok h') : BidWF h' := by
  obtain ⟨hnd, hsome, hknd, hiff, hne⟩ := hw
  cases hl : dictLookup h.order_dict o.price with
  | some q =>
    simp only [add_bid, hl, Except.ok.injEq] at hadd
    subst hadd
    refine ⟨hnd, hsome, ?_, ?_, ?_⟩
    · simpa [dictKeys_dictSet] using hknd
    · intro x
      rw [dictKeys_dictSet]
      exact hiff x
    · intro kv hkv
      rcases mem_dictSet hkv with h2 | h2
      · simp [h2]
      · exact hne kv h2
  | none =>
    rw [hp] at hl
    simp only [add_bid, hp, hl, heapPush_ok hsome, Except.ok.injEq] at hadd
    subst hadd
    have hnpheap : some (-p) ∉ h.price_heap := by
      intro hm
      have hx : some p ∈ negKeys h.price_heap :=
        mem_negKeys.mpr ⟨some (-p), hm, by simp⟩
      exact not_mem_of_dictLookup_none hl ((hiff _).mp hx)
    have hkeys : dictKeys (h.order_dict ++ [(some p, [o])]) =
        dictKeys h.order_dict ++ [some p] := by simp [dictKeys]
    refine ⟨nodup_insertPrice hsome hnd hnpheap, isSome_insertPrice hsome, ?_, ?_, ?_⟩
    · rw [hkeys]
      simpa [List.nodup_append] using ⟨hknd, not_mem_of_dictLookup_none hl⟩
    · intro x
      rw [hkeys]
      constructor
      · intro hx
        rcases mem_negKeys.mp hx with ⟨y, hy, hfy⟩
        rcases (mem_insertPrice hsome).mp hy with h1 | h1
        · subst h1
          simp at hfy
          simp [← hfy]
        · have hx2 : x ∈ negKeys h.price_heap := mem_negKeys.mpr ⟨y, h1, hfy⟩
          simp only [List.mem_append]
          exact Or.inl ((hiff x).mp hx2)
      · intro hx
        rcases List.mem_append.mp hx with h1 | h1
        · rcases mem_negKeys.mp ((hiff x).mpr h1) with ⟨y, hy, hfy⟩
          exact mem_negKeys.mpr ⟨y, (mem_insertPrice hsome).mpr (Or.inr hy), hfy⟩
        · simp at h1
          subst h1
          exact mem_negKeys.mpr ⟨some (-p), (mem_insertPrice hsome).mpr (Or.inl rfl), by simp⟩
    · intro kv hkv
      rcases List.mem_append.mp hkv with h2 | h2
      · exact hne kv h2
      · simp at h2
        simp [h2]

lemma bidWF_pop {h h' : BidHeap} {r : Option Order}
    (hw : BidWF h) (hpop : pop_top_bid h = .ok (r, h')) : BidWF h' := by
  obtain ⟨hnd, hsome, hknd, hiff, hne⟩ := hw
  cases hh : h.price_heap with
  | nil =>
    simp only [pop_top_bid, hh, Except.ok.injEq, Prod.mk.injEq] at hpop
    rw [← hpop.2]
    exact ⟨hnd, hsome, hknd, hiff, hne⟩
  | cons k rest =>
    cases k with
    | none => simp [pop_top_bid, hh] at hpop
    | some np =>
      simp only [pop_top_bid, hh] at hpop
      cases hl : dictLookup h.order_dict (some (-np)) with
      | none => simp [hl] at hpop
      | some ql =>
        cases ql with
        | nil => simp [hl] at hpop
        | cons o q =>
          simp only [hl] at hpop
          rw [hh] at hnd hiff hsome
          have hkrest : some np ∉ rest := (List.nodup_cons.mp hnd).1
          have hndrest : rest.Nodup := (List.nodup_cons.mp hnd).2
          have hneg : negKeys (some np :: rest) = some (-np) :: negKeys rest := by
            simp [negKeys]
          by_cases hq : q = []
          · rw [if_pos hq] at hpop
            simp only [Except.ok.injEq, Prod.mk.injEq] at hpop
            rw [← hpop.2]
            refine ⟨hndrest, ?_, ?_, ?_, ?_⟩
            · intro x hx
              exact hsome x (by simp [hx])
            · rw [dictKeys_dictRemove]
              exact hknd.filter _
            · intro x
              rw [dictKeys_dictRemove, List.mem_filter]
              constructor
              · intro hx
                have hxk : x ≠ some (-np) := by
                  intro he
                  rcases mem_negKeys.mp (he ▸ hx) with ⟨y, hy, hfy⟩
                  rcases y with _ | b
                  · simp at hfy
                  · simp at hfy
                    exact hkrest (hfy ▸ hy)
                refine ⟨(hiff x).mp ?_, by simpa using hxk⟩
                rw [hneg]
                simp only [List.mem_cons]
                right
                exact hx
              · rintro ⟨hx, hxk⟩
                have := (hiff x).mpr hx
                rw [hneg] at this
                simp only [List.mem_cons] at this
                rcases this with he | hr
                · exact absurd he (by simpa using hxk)
                · exact hr
            · intro kv hkv
              exact hne kv (mem_dictRemove hkv)
          · rw [if_neg hq] at hpop
            simp only [Except.ok.injEq, Prod.mk.injEq] at hpop
            rw [← hpop.2]
            refine ⟨hnd, ?_, ?_, ?_, ?_⟩
            · intro x hx
              exact hsome x hx
            · simpa [dictKeys_dictSet] using hknd
            · intro x
              rw [dictKeys_dictSet]
              exact hiff x
            · intro kv hkv
              rcases mem_dictSet hkv with h2 | h2
              · rw [h2]; exact hq
              · exact hne kv h2

/-- Ask-side states reachable from the empty side by inserting priced
limit orders (`add_ask`; per the data model, orders resting in a SideBook
carry a price) and popping the best (`pop_bottom_ask`). -/
inductive ReachAsk : AskHeap → Prop where
  | empty : ReachAsk ⟨[], []⟩
  | insert {h h' : AskHeap} {o : Order} {p : ℚ} :
      ReachAsk h → o.price = some p → add_ask o h = .ok h' → ReachAsk h'
  | pop {h h' : AskHeap} {r : Option Order} :
      ReachAsk h → pop_bottom_ask h = .ok (r, h') → ReachAsk h'

/-- Bid-side states reachable by `add_bid` of priced orders and
`pop_top_bid`. -/
inductive ReachBid : BidHeap → Prop where
  | empty : ReachBid ⟨[], []⟩
  | insert {h h' : BidHeap} {o : Order} {p : ℚ} :
      ReachBid h → o.price = some p → add_bid o h = .ok h' → ReachBid h'
  | pop {h h' : BidHeap} {r : Option Order} :
      ReachBid h → pop_top_bid h = .ok (r, h') → ReachBid h'

lemma askWF_of_reach {h : AskHeap} (hr : ReachAsk h) : AskWF h := by
  induction hr with
  | empty => exact ⟨by simp, by simp, by simp [dictKeys], by simp [dictKeys], by simp⟩
  | insert hr hp hadd ih => exact askWF_add ih hp hadd
  | pop hr hpop ih => exact askWF_pop ih hpop

lemma bidWF_of_reach {h : BidHeap} (hr : ReachBid h) : BidWF h := by
  induction hr with
  | empty => exact ⟨by simp, by simp, by simp [dictKeys], by simp [negKeys, dictKeys], by simp⟩
  | insert hr hp hadd ih => exact bidWF_add ih hp hadd
  | pop hr hpop ih => exact bidWF_pop ih hpop

/-- Claim C7: in every side-book state reachable by any sequence of
insert and pop-best operations, the set of prices stored in the side's
heap — after undoing the bid-side negation — equals the set of keys of
that side's `order_dict`, and every queue in `order_dict` is non-empty. -/
theorem c7_side_book_consistency :
    (∀ h : AskHeap, ReachAsk h →
        h.price_heap.toFinset = (dictKeys h.order_dict).toFinset ∧
        ∀ kv ∈ h.order_dict, kv.2 ≠ []) ∧
    (∀ h : BidHeap, ReachBid h →
        (negKeys h.price_heap).toFinset = (dictKeys h.order_dict).toFinset ∧
        ∀ kv ∈ h.order_dict, kv.2 ≠ []) := by
  constructor
  · intro h hr
    obtain ⟨-, -, -, hiff, hne⟩ := askWF_of_reach hr
    refine ⟨Finset.ext fun x => ?_, hne⟩
    simpa using hiff x
  · intro h hr
    obtain ⟨-, -, -, hiff, hne⟩ := bidWF_of_reach hr
    refine ⟨Finset.ext fun x => ?_, hne⟩
    simpa using hiff x

/-- Intermediate ask states for the C7 witness derivation. -/
def c7_ask1 : AskHeap := ⟨[some 10], [(some 10, [⟨1, .SELL, 5, .LIMIT, some 10⟩])]⟩

def c7_ask2 : AskHeap :=
  ⟨[some 9, some 10],
    [(some 10, [⟨1, .SELL, 5, .LIMIT, some 10⟩]), (some 9, [⟨2, .SELL, 7, .LIMIT, some 9⟩])]⟩

/-- Intermediate bid states for the C7 witness derivation. -/
def c7_bid1 : BidHeap := ⟨[some (-10)], [(some 10, [⟨3, .BUY, 5, .LIMIT, some 10⟩])]⟩

def c7_bid2 : BidHeap :=
  ⟨[some (-11), some (-10)],
    [(some 10, [⟨3, .BUY, 5, .LIMIT, some 10⟩]), (some 11, [⟨4, .BUY, 2, .LIMIT, some 11⟩])]⟩

/-- Witness for `c7_side_book_consistency`: the concrete ask state after
inserting asks at 10 and 9 and popping the best, and the concrete bid
state after inserting bids at 10 and 11 and popping the best. -/
theorem c7_side_book_consistency_witness :
    (c7_ask1.price_heap.toFinset = (dictKeys c7_ask1.order_dict).toFinset ∧
      ∀ kv ∈ c7_ask1.order_dict, kv.2 ≠ []) ∧
    ((negKeys c7_bid1.price_heap).toFinset = (dictKeys c7_bid1.order_dict).toFinset ∧
      ∀ kv ∈ c7_bid1.order_dict, kv.2 ≠ []) := by
  constructor
  · exact c7_side_book_consistency.1 c7_ask1
      (@ReachAsk.pop c7_ask2 c7_ask1 (some ⟨2, .SELL, 7, .LIMIT, some 9⟩)
        (@ReachAsk.insert c7_ask1 c7_ask2 ⟨2, .SELL, 7, .LIMIT, some 9⟩ 9
          (@ReachAsk.insert ⟨[], []⟩ c7_ask1 ⟨1, .SELL, 5, .LIMIT, some 10⟩ 10
            ReachAsk.empty rfl (by decide))
          rfl (by decide))
        (by decide))
  · exact c7_side_book_consistency.2 c7_bid1
      (@ReachBid.pop c7_bid2 c7_bid1 (some ⟨4, .BUY, 2, .LIMIT, some 11⟩)
        (@ReachBid.insert c7_bid1 c7_bid2 ⟨4, .BUY, 2, .LIMIT, some 11⟩ 11
          (@ReachBid.insert ⟨[], []⟩ c7_bid1 ⟨3, .BUY, 5, .LIMIT, some 10⟩ 10
            ReachBid.empty rfl (by decide))
          rfl (by decide))
        (by decide))

/-- Every resting order in the book has strictly positive quantity. -/
def PosQuantities (ob : OrderBook) : Prop :=
  (∀ kv ∈ ob.bid_heap.order_dict, ∀ ro ∈ kv.2, 0 < ro.quantity) ∧
  (∀ kv ∈ ob.ask_heap.order_dict, ∀ ro ∈ kv.2, 0 < ro.quantity)

lemma heapPush_not_fuel {x : Option ℚ} {l : List (Option ℚ)} :
    heapPush x l ≠ .error .fuelOut := by
  unfold heapPush
  split
  · simp
  · split
    · simp
    · split <;> simp

lemma add_ask_not_fuel {o : Order} {h : AskHeap} : add_ask o h ≠ .error .fuelOut := by
  unfold add_ask
  split
  · simp
  · split
    · rename_i e heq
      intro hc
      simp at hc
      exact heapPush_not_fuel (by rw [heq, hc])
    · simp

lemma add_bid_not_fuel {o : Order} {h : BidHeap} : add_bid o h ≠ .error .fuelOut := by
  unfold add_bid
  split
  · simp
  · split
    · simp
    · split
      · rename_i e heq
        intro hc
        simp at hc
        exact heapPush_not_fuel (by rw [heq, hc])
      · simp

lemma peek_top_bid_not_fuel {h : BidHeap} : peek_top_bid h ≠ .error .fuelOut := by
  unfold peek_top_bid
  split
  · simp
  · simp
  · split <;> simp

lemma peek_bottom_ask_not_fuel {h : AskHeap} : peek_bottom_ask h ≠ .error .fuelOut := by
  unfold peek_bottom_ask
  split
  · simp
  · split <;> simp

lemma pop_top_bid_not_fuel {h : BidHeap} {e : PyErr}
    (hp : pop_top_bid h = .error e) : e ≠ .fuelOut := by
  unfold pop_top_bid at hp
  split at hp
  · simp at hp
  · simp at hp
    simp [← hp]
  · split at hp
    · simp at hp
      simp [← hp]
    · simp at hp
      simp [← hp]
    · split at hp <;> simp at hp

lemma pop_bottom_ask_not_fuel {h : AskHeap} {e : PyErr}
    (hp : pop_bottom_ask h = .error e) : e ≠ .fuelOut := by
  unfold pop_bottom_ask at hp
  split at hp
  · simp at hp
  · split at hp
    · simp at hp
      simp [← hp]
    · simp at hp
      simp [← hp]
    · split at hp <;> simp at hp

lemma dict_decrement_head_not_fuel {d : OrderDict} {k : Option ℚ} {amt : Int} {e : PyErr}
    (hp : dict_decrement_head d k amt = .error e) : e ≠ .fuelOut := by
  unfold dict_decrement_head at hp
  split at hp
  · simp at hp
    simp [← hp]
  · simp at hp
    simp [← hp]
  · simp at hp

lemma peek_top_bid_mem {h : BidHeap} {tb : Order}
    (hpeek : peek_top_bid h = .ok (some tb)) : ∃ kv ∈ h.order_dict, tb ∈ kv.2 := by
  unfold peek_top_bid at hpeek
  split at hpeek
  · simp at hpeek
  · simp at hpeek
  · split at hpeek
    · simp at hpeek
    · simp at hpeek
    · rename_i heq
      simp only [Except.ok.injEq, Option.some.injEq] at hpeek
      subst hpeek
      exact ⟨_, dictLookup_mem heq, by simp⟩

lemma peek_bottom_ask_mem {h : AskHeap} {ba : Order}
    (hpeek : peek_bottom_ask h = .ok (some ba)) : ∃ kv ∈ h.order_dict, ba ∈ kv.2 := by
  unfold peek_bottom_ask at hpeek
  split at hpeek
  · simp at hpeek
  · split at hpeek
    · simp at hpeek
    · simp at hpeek
    · rename_i heq
      simp only [Except.ok.injEq, Option.some.injEq] at hpeek
      subst hpeek
      exact ⟨_, dictLookup_mem heq, by simp⟩

lemma pop_top_bid_sub {h h' : BidHeap} {r : Option Order}
    (hpop : pop_top_bid h = .ok (r, h')) :
    ∀ kv ∈ h'.order_dict, ∀ ro ∈ kv.2, ∃ kv0 ∈ h.order_dict, ro ∈ kv0.2 := by
  unfold pop_top_bid at hpop
  split at hpop
  · simp only [Except.ok.injEq, Prod.mk.injEq] at hpop
    obtain ⟨-, h2⟩ := hpop
    subst h2
    intro kv hkv ro hro
    exact ⟨kv, hkv, hro⟩
  · simp at hpop
  · split at hpop
    · simp at hpop
    · simp at hpop
    · rename_i heq
      split at hpop <;>
        simp only [Except.ok.injEq, Prod.mk.injEq] at hpop <;>
        obtain ⟨-, h2⟩ := hpop <;> subst h2 <;> intro kv hkv ro hro
      · exact ⟨kv, mem_dictRemove hkv, hro⟩
      · rcases mem_dictSet hkv with h3 | h3
        · exact ⟨_, dictLookup_mem heq, by rw [h3] at hro; simp [hro]⟩
        · exact ⟨kv, h3, hro⟩

lemma pop_bottom_ask_sub {h h' : AskHeap} {r : Option Order}
    (hpop : pop_bottom_ask h = .ok (r, h')) :
    ∀ kv ∈ h'.order_dict, ∀ ro ∈ kv.2, ∃ kv0 ∈ h.order_dict, ro ∈ kv0.2 := by
  unfold pop_bottom_ask at hpop
  split at hpop
  · simp only [Except.ok.injEq, Prod.mk.injEq] at hpop
    obtain ⟨-, h2⟩ := hpop
    subst h2
    intro kv hkv ro hro
    exact ⟨kv, hkv, hro⟩
  · split at hpop
    · simp at hpop
    · simp at hpop
    · rename_i heq
      split at hpop <;>
        simp only [Except.ok.injEq, Prod.mk.injEq] at hpop <;>
        obtain ⟨-, h2⟩ := hpop <;> subst h2 <;> intro kv hkv ro hro
      · exact ⟨kv, mem_dictRemove hkv, hro⟩
      · rcases mem_dictSet hkv with h3 | h3
        · exact ⟨_, dictLookup_mem heq, by rw [h3] at hro; simp [hro]⟩
        · exact ⟨kv, h3, hro⟩

lemma limit_rest_not_fuel_sell {ob : OrderBook} {o tb : Order} {p tbp : ℚ} {fuel : Nat}
    (hside : o.side = .SELL) (hp : o.price = some p)
    (hpeek : peek_top_bid ob.bid_heap = .ok (some tb)) (htb : tb.price = some tbp)
    (hgt : tbp < p) :
    (handle_limit_go (fuel + 1) ob o).err ≠ some .fuelOut := by
  have hcross : crossed_spread ob o = .ok false := by
    simp only [crossed_spread, hside, hpeek, hp, htb, pyLt, Except.ok.injEq]
    simp [not_lt.mpr hgt.le]
  simp only [handle_limit_go, hside, hcross]
  cases hadd : add_ask o ob.ask_heap with
  | error e =>
    simp only [hadd]
    intro hc
    simp at hc
    subst hc
    exact add_ask_not_fuel hadd
  | ok ah => simp [hadd]

lemma limit_rest_not_fuel_buy {ob : OrderBook} {o ba : Order} {p bap : ℚ} {fuel : Nat}
    (hside : o.side = .BUY) (hp : o.price = some p)
    (hpeek : peek_bottom_ask ob.ask_heap = .ok (some ba)) (hba : ba.price = some bap)
    (hlt : p < bap) :
    (handle_limit_go (fuel + 1) ob o).err ≠ some .fuelOut := by
  have hcross : crossed_spread ob o = .ok false := by
    simp only [crossed_spread, hside, hpeek, hp, hba, pyGt, Except.ok.injEq]
    simp [not_lt.mpr hlt.le]
  simp only [handle_limit_go, hside, hcross]
  cases hadd : add_bid o ob.bid_heap with
  | error e =>
    simp only [hadd]
    intro hc
    simp at hc
    subst hc
    exact add_bid_not_fuel hadd
  | ok bh => simp [hadd]

lemma market_go_done {fuel : Nat} {ob : OrderBook} {o : Order}
    (hq : ¬ 0 < o.quantity) :
    (handle_market_go (fuel + 1) ob o).err ≠ some .fuelOut := by
  cases hs : o.side <;> simp [handle_market_go, hs, hq]

lemma market_go_not_fuel :
    ∀ (fuel : Nat) (ob : OrderBook) (o : Order),
      PosQuantities ob → o.quantity.toNat + 3 ≤ fuel →
      (handle_market_go fuel ob o).err ≠ some .fuelOut := by
  intro fuel
  induction fuel using Nat.strong_induction_on with
  | _ fuel ih =>
    intro ob o hpos hfuel
    obtain ⟨f, rfl⟩ : ∃ f, fuel = f + 1 := ⟨fuel - 1, by omega⟩
    by_cases hq : 0 < o.quantity
    case neg => exact market_go_done hq
    obtain ⟨f', rfl⟩ : ∃ f', f = f' + 1 := ⟨f - 1, by omega⟩
    cases hs : o.side with
    | SELL =>
      simp only [handle_market_go, hs]
      rw [if_pos hq]
      cases hpeek : peek_top_bid ob.bid_heap with
      | error e =>
        simp only
        intro hc
        simp at hc
        subst hc
        exact peek_top_bid_not_fuel hpeek
      | ok top_bid =>
        simp only
        have hfill : ∀ tb tbp, tb.price = some tbp → top_bid = some tb →
            (match sell_fill_cases ob o tb tbp with
              | .halt r => r
              | .next ob2 o2 => handle_market_go (f' + 1) ob2 o2).err ≠
              some .fuelOut := by
          intro tb tbp htbp htop
          obtain ⟨kv, hkv, htbin⟩ := peek_top_bid_mem (htop ▸ hpeek)
          have htbq : 0 < tb.quantity := hpos.1 kv hkv tb htbin
          by_cases h1 : tb.quantity = o.quantity
          · simp only [sell_fill_cases, h1, if_true, ite_true]
            cases hpop : pop_top_bid ob.bid_heap with
            | error e =>
              simp only [hpop]
              intro hc
              simp at hc
              subst hc
              exact pop_top_bid_not_fuel hpop rfl
            | ok pr =>
              simp only [hpop]
              exact market_go_done (by simp)
          · by_cases h2 : tb.quantity > o.quantity
            · simp only [sell_fill_cases, h1, h2, if_false, ite_false, if_true, ite_true]
              cases hdd : dict_decrement_head ob.bid_heap.order_dict tb.price o.quantity with
              | error e =>
                simp only [hdd]
                intro hc
                simp at hc
                subst hc
                exact dict_decrement_head_not_fuel hdd rfl
              | ok d =>
                simp only [hdd]
                exact market_go_done (by simp)
            · simp only [sell_fill_cases, h1, h2, if_false, ite_false]
              cases hpop : pop_top_bid ob.bid_heap with
              | error e =>
                simp only [hpop]
                intro hc
                simp at hc
                subst hc
                exact pop_top_bid_not_fuel hpop rfl
              | ok pr =>
                rcases pr with ⟨r2, bh⟩
                simp only [hpop]
                have hlt : tb.quantity < o.quantity := by omega
                refine ih (f' + 1) (by omega) _ _ ⟨?_, hpos.2⟩ ?_
                · intro kv2 hkv2 ro hro
                  obtain ⟨kv0, hkv0, hro0⟩ := pop_top_bid_sub hpop kv2 hkv2 ro hro
                  exact hpos.1 kv0 hkv0 ro hro0
                · simp only
                  omega
        cases hp : o.price with
        | some p =>
          cases top_bid with
          | none => simp
          | some tb =>
            cases htbp : tb.price with
            | none => simp [htbp]
            | some tbp =>
              simp only [htbp]
              by_cases hgt : p > tbp
              · rw [if_pos hgt]
                exact limit_rest_not_fuel_sell hs hp hpeek htbp hgt
              · rw [if_neg hgt]
                exact hfill tb tbp htbp rfl
        | none =>
          cases top_bid with
          | none => simp
          | some tb =>
            cases htbp : tb.price with
            | none => simp [htbp]
            | some tbp =>
              simp only [htbp]
              exact hfill tb tbp htbp rfl
    | BUY =>
      simp only [handle_market_go, hs]
      rw [if_pos hq]
      cases hpeek : peek_bottom_ask ob.ask_heap with
      | error e =>
        simp only
        intro hc
        simp at hc
        subst hc
        exact peek_bottom_ask_not_fuel hpeek
      | ok bottom_ask =>
        simp only
        have hfill : ∀ ba bap, ba.price = some bap → bottom_ask = some ba →
            (match buy_fill_cases ob o ba bap with
              | .halt r => r
              | .next ob2 o2 => handle_market_go (f' + 1) ob2 o2).err ≠
              some .fuelOut := by
          intro ba bap hbap htop
          obtain ⟨kv, hkv, hbain⟩ := peek_bottom_ask_mem (htop ▸ hpeek)
          have hbaq : 0 < ba.quantity := hpos.2 kv hkv ba hbain
          by_cases h1 : ba.quantity = o.quantity
          · simp only [buy_fill_cases, h1, if_true, ite_true]
            cases hpop : pop_bottom_ask ob.ask_heap with
            | error e =>
              simp only [hpop]
              intro hc
              simp at hc
              subst hc
              exact pop_bottom_ask_not_fuel hpop rfl
            | ok pr =>
              simp only [hpop]
              exact market_go_done (by simp)
          · by_cases h2 : ba.quantity > o.quantity
            · simp only [buy_fill_cases, h1, h2, if_false, ite_false, if_true, ite_true]
              cases hdd : dict_decrement_head ob.ask_heap.order_dict ba.price o.quantity with
              | error e =>
                simp only [hdd]
                intro hc
                simp at hc
                subst hc
                exact dict_decrement_head_not_fuel hdd rfl
              | ok d =>
                simp only [hdd]
                exact market_go_done (by simp)
            · simp only [buy_fill_cases, h1, h2, if_false, ite_false]
              cases hpop : pop_bottom_ask ob.ask_heap with
              | error e =>
                simp only [hpop]
                intro hc
                simp at hc
                subst hc
                exact pop_bottom_ask_not_fuel hpop rfl
              | ok pr =>
                rcases pr with ⟨r2, ah⟩
                simp only [hpop]
                have hlt : ba.quantity < o.quantity := by omega
                refine ih (f' + 1) (by omega) _ _ ⟨hpos.1, ?_⟩ ?_
                · intro kv2 hkv2 ro hro
                  obtain ⟨kv0, hkv0, hro0⟩ := pop_bottom_ask_sub hpop kv2 hkv2 ro hro
                  exact hpos.2 kv0 hkv0 ro hro0
                · simp only
                  omega
        cases hp : o.price with
        | some p =>
          cases bottom_ask with
          | none => simp
          | some ba =>
            cases hbap : ba.price with
            | none => simp [hbap]
            | some bap =>
              simp only [hbap]
              by_cases hlt : p < bap
              · rw [if_pos hlt]
                exact limit_rest_not_fuel_buy hs hp hpeek hbap hlt
              · rw [if_neg hlt]
                exact hfill ba bap hbap rfl
        | none =>
          cases bottom_ask with
          | none => simp
          | some ba =>
            cases hbap : ba.price with
            | none => simp [hbap]
            | some bap =>
              simp only [hbap]
              exact hfill ba bap hbap rfl

/-- Claim C10: `handle_market_order` terminates for every incoming order
with positive quantity provided every resting order has strictly positive
quantity.  In the embedding the loop runs on a fuel budget of
`quantity.toNat + 3`; `fuelOut` marks budget exhaustion, so this theorem
says the budget is never hit: each iteration either raises, returns after
re-resting the residual, or strictly decreases the remaining quantity. -/
theorem c10_handle_market_terminates :
    ∀ (ob : OrderBook) (o : Order), PosQuantities ob → 0 < o.quantity →
      (handle_market_order ob o).err ≠ some .fuelOut := by
  intro ob o hpos _
  exact market_go_not_fuel _ ob o hpos (le_refl _)

/-- Witness for `c10_handle_market_terminates`: a SELL MARKET 120 against
the test-populated book terminates without exhausting its budget. -/
theorem c10_handle_market_terminates_witness :
    (handle_market_order populate_for_testing ⟨97, .SELL, 120, .MARKET, none⟩).err ≠
      some .fuelOut :=
  c10_handle_market_terminates populate_for_testing ⟨97, .SELL, 120, .MARKET, none⟩
    ⟨by decide, by decide⟩ (by decide)

/-- `utils.Snapshot` as enqueued by `Database.snapshot`; the timestamp is
an abstract clock value (`datetime.now()`). -/
structure Snapshot where
  timestamp : Nat
  reference_price : ℚ
  last_trade_price : ℚ
  last_trade_volume : Int
  top_bid : Order
  top_ask : Order
deriving DecidableEq, Repr

/-- `market_maker.database.Database`: the market maker's shared state.
`bid_heap`, `ask_heap` and `clearing_house` are bundled as the
`OrderBook` the order service operates on; `market_snapshot_queue` is a
FIFO (front = head); `last_trade` starts as `(None, None)`. -/
structure Database where
  book : OrderBook
  market_snapshot_queue : List Snapshot
  last_trade : Option ℚ × Option Int
deriving DecidableEq, Repr

/-- `Database.snapshot` (src/market_maker/database.py:54-57): build a
snapshot of the market and `put` it on the queue.  The built snapshot is
a parameter here because `get_snapshot` reads the wall clock; the effect
claim C8 is about is the enqueue, an append at the back of the FIFO. -/
def db_snapshot (db : Database) (snap : Snapshot) : Database :=
  { db with market_snapshot_queue := db.market_snapshot_queue ++ [snap] }

/-- An inbound envelope as `OrderRouter.run` sees it, with the order
payload already decoded (`Order.model_validate_json`). -/
structure RouterMsg where
  message_type : String
  data : Order
deriving DecidableEq, Repr

/-- One iteration of `OrderRouter.run`
(src/market_maker/order_router.py:27-45) after a message arrives: if the
envelope's `message_type` is `"ORDER"`, decode the order and submit it to
the order book via `send_order`; any other message is ignored.  No other
statement runs in the loop body — in particular `Database.snapshot` is
never invoked on this path. -/
def routerStep (db : Database) (m : RouterMsg) : Database :=
  if m.message_type = "ORDER" then
    { db with book := (send_order db.book m.data).book }
  else db

/-- Claim C8 as stated is false: the ingress path accepts and processes
an order (here a resting BUY LIMIT, which changes the bid side) yet
enqueues no snapshot — the queue stays empty rather than gaining exactly
one entry. -/
theorem c8_no_snapshot_counterexample :
    (routerStep ⟨empty_order_book, [], (none, none)⟩
        ⟨"ORDER", ⟨5, .BUY, 100, .LIMIT, some 100⟩⟩).book.bid_heap ≠
      empty_order_book.bid_heap ∧
    (routerStep ⟨empty_order_book, [], (none, none)⟩
        ⟨"ORDER", ⟨5, .BUY, 100, .LIMIT, some 100⟩⟩).market_snapshot_queue.length ≠ 1 := by
  refine ⟨by decide, by decide⟩

/-- Claim C8, amended: the order-ingress path never builds or enqueues a
market snapshot — `OrderRouter.run` only submits the decoded order to the
book, leaving the snapshot queue exactly as it was (for every database
state and every message), while `Database.snapshot`, which would append
one snapshot to the queue, has no caller on this path. -/
theorem c8_no_snapshot_per_order :
    (∀ (db : Database) (m : RouterMsg),
        (routerStep db m).market_snapshot_queue = db.market_snapshot_queue) ∧
    (∀ (db : Database) (s : Snapshot),
        (db_snapshot db s).market_snapshot_queue =
          db.market_snapshot_queue ++ [s]) := by
  constructor
  · intro db m
    unfold routerStep
    split <;> rfl
  · intro db s
    rfl

namespace Wire

/-- A naive `datetime` as held in `utils.Order.timestamp` (the program
creates only naive timestamps via `datetime.now()`). -/
structure DT where
  year : Nat
  month : Nat
  day : Nat
  hour : Nat
  minute : Nat
  second : Nat
  microsecond : Nat
deriving DecidableEq, Repr

/-- The field ranges `datetime` enforces at construction (with the
month-independent day bound `≤ 31`, which is all the round trip needs). -/
def DT.Valid (d : DT) : Prop :=
  1 ≤ d.year ∧ d.year ≤ 9999 ∧ 1 ≤ d.month ∧ d.month ≤ 12 ∧
  1 ≤ d.day ∧ d.day ≤ 31 ∧ d.hour ≤ 23 ∧ d.minute ≤ 59 ∧
  d.second ≤ 59 ∧ d.microsecond ≤ 999999

instance (d : DT) : Decidable d.Valid := by
  unfold DT.Valid
  infer_instance

def digitChar (n : Nat) : Char := Char.ofNat (48 + n)

def pad2 (n : Nat) : List Char := [digitChar (n / 10), digitChar (n % 10)]

def pad4 (n : Nat) : List Char :=
  [digitChar (n / 1000), digitChar (n / 100 % 10), digitChar (n / 10 % 10),
   digitChar (n % 10)]

def pad6 (n : Nat) : List Char :=
  [digitChar (n / 100000), digitChar (n / 10000 % 10), digitChar (n / 1000 % 10),
   digitChar (n / 100 % 10), digitChar (n / 10 % 10), digitChar (n % 10)]

/-- `datetime.isoformat()` for a naive datetime:
`YYYY-MM-DDTHH:MM:SS`, plus `.ffffff` when `microsecond` is non-zero. -/
def isoformat (d : DT) : List Char :=
  pad4 d.year ++ ('-' :: (pad2 d.month ++ ('-' :: (pad2 d.day ++ ('T' :: (pad2 d.hour ++
    (':' :: (pad2 d.minute ++ (':' :: (pad2 d.second ++
      (if d.microsecond = 0 then [] else '.' :: pad6 d.microsecond)))))))))))

def readDigit (c : Char) : Option Nat :=
  if 48 ≤ c.toNat ∧ c.toNat ≤ 57 then some (c.toNat - 48) else none

def read2 (c1 c0 : Char) : Option Nat := do
  let a ← readDigit c1
  let b ← readDigit c0
  pure (10 * a + b)

def read4 (c3 c2 c1 c0 : Char) : Option Nat := do
  let a ← readDigit c3
  let b ← readDigit c2
  let c ← readDigit c1
  let d ← readDigit c0
  pure (1000 * a + 100 * b + 10 * c + d)

def read6 (c5 c4 c3 c2 c1 c0 : Char) : Option Nat := do
  let a ← readDigit c5
  let b ← readDigit c4
  let c ← readDigit c3
  let d ← readDigit c2
  let e ← readDigit c1
  let f ← readDigit c0
  pure (100000 * a + 10000 * b + 1000 * c + 100 * d + 10 * e + f)

/-- `datetime.fromisoformat` restricted to the grammar `isoformat`
produces for naive datetimes (fixed-width fields, optional 6-digit
fractional second); any other shape is a parse failure. -/
def fromisoformat (s : List Char) : Option DT :=
  match s with
  | y3 :: y2 :: y1 :: y0 :: '-' :: m1 :: m0 :: '-' :: d1 :: d0 :: 'T' ::
      h1 :: h0 :: ':' :: mi1 :: mi0 :: ':' :: s1 :: s0 :: rest => do
    let y ← read4 y3 y2 y1 y0
    let mo ← read2 m1 m0
    let da ← read2 d1 d0
    let ho ← read2 h1 h0
    let mi ← read2 mi1 mi0
    let se ← read2 s1 s0
    match rest with
    | [] => pure ⟨y, mo, da, ho, mi, se, 0⟩
    | '.' :: u5 :: u4 :: u3 :: u2 :: u1 :: u0 :: [] => do
      let us ← read6 u5 u4 u3 u2 u1 u0
      pure ⟨y, mo, da, ho, mi, se, us⟩
    | _ => none
  | _ => none

lemma readDigit_digitChar {n : Nat} (h : n < 10) : readDigit (digitChar n) = some n := by
  interval_cases n <;> decide

lemma read2_pad2 {n : Nat} (h : n < 100) :
    read2 (digitChar (n / 10)) (digitChar (n % 10)) = some n := by
  rw [read2, readDigit_digitChar (by omega), readDigit_digitChar (by omega)]
  simp only [Option.pure_def, Option.bind_eq_bind, Option.some_bind, Option.some.injEq]
  omega

lemma read4_pad4 {n : Nat} (h : n < 10000) :
    read4 (digitChar (n / 1000)) (digitChar (n / 100 % 10)) (digitChar (n / 10 % 10))
      (digitChar (n % 10)) = some n := by
  rw [read4, readDigit_digitChar (by omega), readDigit_digitChar (by omega),
    readDigit_digitChar (by omega), readDigit_digitChar (by omega)]
  simp only [Option.pure_def, Option.bind_eq_bind, Option.some_bind, Option.some.injEq]
  omega

lemma read6_pad6 {n : Nat} (h : n < 1000000) :
    read6 (digitChar (n / 100000)) (digitChar (n / 10000 % 10))
      (digitChar (n / 1000 % 10)) (digitChar (n / 100 % 10))
      (digitChar (n / 10 % 10)) (digitChar (n % 10)) = some n := by
  rw [read6, readDigit_digitChar (by omega), readDigit_digitChar (by omega),
    readDigit_digitChar (by omega), readDigit_digitChar (by omega),
    readDigit_digitChar (by omega), readDigit_digitChar (by omega)]
  simp only [Option.pure_def, Option.bind_eq_bind, Option.some_bind, Option.some.injEq]
  omega

lemma fromisoformat_isoformat {d : DT} (h : d.Valid) :
    fromisoformat (isoformat d) = some d := by
  obtain ⟨y, mo, da, ho, mi, se, us⟩ := d
  obtain ⟨h1, h2, h3, h4, h5, h6, h7, h8, h9, h10⟩ := h
  simp only at h1 h2 h3 h4 h5 h6 h7 h8 h9 h10
  by_cases hus : us = 0
  · subst hus
    simp only [isoformat, pad4, pad2, pad6, if_true, ite_true, List.cons_append,
      List.nil_append, List.append_nil]
    rw [fromisoformat]
    rw [read4_pad4 (by omega), read2_pad2 (by omega), read2_pad2 (by omega),
      read2_pad2 (by omega), read2_pad2 (by omega), read2_pad2 (by omega)]
    simp only [Option.pure_def, Option.bind_eq_bind, Option.some_bind]
  · simp only [isoformat, pad4, pad2, pad6, hus, if_false, ite_false, List.cons_append,
      List.nil_append, List.append_nil]
    rw [fromisoformat]
    rw [read4_pad4 (by omega), read2_pad2 (by omega), read2_pad2 (by omega),
      read2_pad2 (by omega), read2_pad2 (by omega), read2_pad2 (by omega)]
    simp only [Option.pure_def, Option.bind_eq_bind, Option.some_bind]
    rw [read6_pad6 (by omega)]
    simp only [Option.some_bind]

/-- `utils.Order` as serialized over the wire: `account_id` is the string
pydantic stores, `timestamp` an optional naive datetime. -/
structure Order where
  account_id : String
  side : OrderSide
  quantity : Int
  order_type : OrderType
  price : Option ℚ
  timestamp : Option DT
deriving DecidableEq, Repr

/-- `OrderSide(...).name` / `OrderType(...).name`. -/
def sideName : OrderSide → String
  | .BUY => "BUY"
  | .SELL => "SELL"

def typeName : OrderType → String
  | .LIMIT => "LIMIT"
  | .MARKET => "MARKET"

/-- `OrderSide[name]`: enum lookup by member name (`KeyError` → `none`). -/
def sideFromName (s : String) : Option OrderSide :=
  if s = "BUY" then some .BUY else if s = "SELL" then some .SELL else none

def typeFromName (s : String) : Option OrderType :=
  if s = "LIMIT" then some .LIMIT else if s = "MARKET" then some .MARKET else none

/-- The dictionary `Order.model_dump` returns (fixed keys; `side` and
`order_type` as member names, `timestamp` as an ISO string or null,
`account_id`, `quantity` and `price` passed through). -/
structure OrderDump where
  account_id : String
  side : String
  quantity : Int
  order_type : String
  price : Option ℚ
  timestamp : Option (List Char)
deriving DecidableEq, Repr

/-- `Order.model_dump` (src/utils.py:55-69). -/
def model_dump (o : Order) : OrderDump :=
  ⟨o.account_id, sideName o.side, o.quantity, typeName o.order_type, o.price,
    o.timestamp.map isoformat⟩

/-- `Order.model_validate_json` (src/utils.py:71-89): rebuild an `Order`
from the dumped dictionary; enum lookups and timestamp parsing can
fail. -/
def model_validate_json (d : OrderDump) : Option Order := do
  let side ← sideFromName d.side
  let otype ← typeFromName d.order_type
  let ts ←
    match d.timestamp with
    | none => some none
    | some s => (fromisoformat s).map some
  pure ⟨d.account_id, side, d.quantity, otype, d.price, ts⟩

/-- Claim C9: dumping a valid `Order` with `model_dump` and validating
the result with `model_validate_json` yields the original order —
`account_id`, `side`, `quantity`, `order_type`, `price` and `timestamp`
(including the `None` cases of `price` and `timestamp`) are all
preserved.  Validity asks only that the timestamp, when present, is a
well-formed datetime. -/
theorem c9_order_roundtrip :
    ∀ o : Order, (∀ t, o.timestamp = some t → t.Valid) →
      model_validate_json (model_dump o) = some o := by
  intro o hval
  obtain ⟨acct, side, qty, otype, price, ts⟩ := o
  cases ts with
  | none =>
    cases side <;> cases otype <;>
      simp [model_dump, model_validate_json, sideName, typeName, sideFromName,
        typeFromName]
  | some t =>
    have ht : t.Valid := hval t rfl
    cases side <;> cases otype <;>
      simp [model_dump, model_validate_json, sideName, typeName, sideFromName,
        typeFromName, fromisoformat_isoformat ht]

/-- Witness for `c9_order_roundtrip` at a concrete order carrying every
field, timestamp included. -/
theorem c9_order_roundtrip_witness :
    model_validate_json (model_dump
        ⟨"agent-7", .BUY, 25, .LIMIT, some (mkRat 995 10),
          some ⟨2024, 5, 17, 12, 30, 5, 123456⟩⟩) =
      some ⟨"agent-7", .BUY, 25, .LIMIT, some (mkRat 995 10),
          some ⟨2024, 5, 17, 12, 30, 5, 123456⟩⟩ :=
  c9_order_roundtrip
    ⟨"agent-7", .BUY, 25, .LIMIT, some (mkRat 995 10),
      some ⟨2024, 5, 17, 12, 30, 5, 123456⟩⟩
    (fun t ht => by
      simp only [Option.some.injEq] at ht
      exact ht ▸ (by decide))

end Wire
